import Mathlib

/-!
Verification development for the stream-repurpose pipeline.

The Python sources are shallowly embedded as pure Lean functions:

* strings are `List Char` (analyzer) or `String` (file paths and names);
* Python floats coming from JSON time stamps are modelled as `ℚ`;
* every external-process or network effect (ffmpeg invocations via
  `subprocess.run(check=True)`, LLM HTTP calls, per-type content
  generation) is a parameter of the embedding, an "oracle" function the
  embedded code calls; the embedding records the interactions it makes
  and aborts at the first failing one, matching `check=True` / uncaught
  exceptions in the source;
* `dict.get` with defaults becomes `Option.getD`, missing keys become
  `Option`/`Except` values.
-/

/-- Equality of embedded outcomes (`Except`) is decidable, so that concrete
runs of the embedding can be checked by `decide`. -/
instance {ε α : Type} [DecidableEq ε] [DecidableEq α] : DecidableEq (Except ε α) := fun a b =>
  match a, b with
  | .ok x, .ok y => if h : x = y then .isTrue (by rw [h]) else .isFalse (by simp [h])
  | .error x, .error y => if h : x = y then .isTrue (by rw [h]) else .isFalse (by simp [h])
  | .ok _, .error _ => .isFalse (by simp)
  | .error _, .ok _ => .isFalse (by simp)

/-! ### Python string helpers (src/src/analyzer.py uses `in`, `index`, slices, `strip`) -/

/-- Characters removed by Python `str.strip()` (ASCII whitespace). -/
def pySpace (c : Char) : Bool :=
  c = ' ' || c = '\t' || c = '\n' || c = '\r' || c = Char.ofNat 11 || c = Char.ofNat 12

/-- Python `s.strip()`: drop leading and trailing whitespace. -/
def pyStrip (l : List Char) : List Char :=
  ((l.dropWhile pySpace).reverse.dropWhile pySpace).reverse

/-- Worker for substring search: first index `≥ i` at which `needle` occurs. -/
def findSubAux (needle : List Char) : List Char → Nat → Option Nat
  | [], i => if needle.isEmpty then some i else none
  | c :: t, i => if needle.isPrefixOf (c :: t) then some i else findSubAux needle t (i + 1)

/-- Python `hay.index(needle)` (as an `Option`; `str.index` raises when absent). -/
def findSub (needle hay : List Char) : Option Nat := findSubAux needle hay 0

/-- Python `hay.index(needle, start)`: search from `start`, absolute index. -/
def findSubFrom (needle hay : List Char) (start : Nat) : Option Nat :=
  (findSub needle (hay.drop start)).map (· + start)

/-- Python `needle in hay` substring test. -/
def containsSub (needle : List Char) : List Char → Bool
  | [] => needle.isEmpty
  | c :: t => needle.isPrefixOf (c :: t) || containsSub needle t

/-- Python slice `l[a:b]` (for `a ≤ b`; empty when `b ≤ a`). -/
def pySlice (l : List Char) (a b : Nat) : List Char := (l.drop a).take (b - a)

/-- Python `str.splitlines()` restricted to the newline terminator: the
list of lines of `l`, with no entry for a trailing newline and no lines
at all for the empty string. -/
def pyLines : List Char → List (List Char)
  | [] => []
  | c :: t =>
    if c = '\n' then [] :: pyLines t
    else
      match pyLines t with
      | [] => [[c]]
      | L :: Ls => (c :: L) :: Ls

/-! ### Decimal formatting (Python `str(n)` and zero-padded `02d`/`03d` formats) -/

/-- Decimal digit characters, as produced by Python `str` on `0..9`. -/
def digitChar (d : Nat) : Char :=
  match d with
  | 0 => '0' | 1 => '1' | 2 => '2' | 3 => '3' | 4 => '4'
  | 5 => '5' | 6 => '6' | 7 => '7' | 8 => '8' | 9 => '9'
  | _ => '?'

/-- Fuel-driven decimal digits accumulator (`fuel ≥ n` suffices). -/
def natReprAux : Nat → Nat → List Char → List Char
  | 0, _, acc => acc
  | fuel + 1, n, acc =>
    if n < 10 then digitChar n :: acc else natReprAux fuel (n / 10) (digitChar (n % 10) :: acc)

/-- Decimal representation of a natural number, as Python `str(n)`. -/
def natRepr (n : Nat) : List Char := natReprAux (n + 1) n []

/-- Zero-pad a digit string on the left to width `w`. -/
def padZeros (w : Nat) (l : List Char) : List Char := List.replicate (w - l.length) '0' ++ l

/-- Python format spec `0{w}d` on a natural number. -/
def padNat (w n : Nat) : List Char := padZeros w (natRepr n)

/-- Python format spec `0{w}d` on an integer: the sign occupies one width unit. -/
def fmt0 (w : Nat) (z : ℤ) : List Char :=
  if z < 0 then '-' :: padNat (w - 1) z.natAbs else padNat w z.natAbs

/-- String form of `padNat`, for building file names. -/
def padNatS (w n : Nat) : String := String.mk (padNat w n)

/-! ### Analyzer (src/src/analyzer.py) -/

/-- Python float floor division `a // b` (result is integer-valued). -/
def pyFloorDiv (a b : ℚ) : ℚ := (⌊a / b⌋ : ℤ)

/-- Python float modulo `a % b` (sign of the divisor). -/
def pyMod (a b : ℚ) : ℚ := a - b * (⌊a / b⌋ : ℤ)

/-- Python `int()` on a float/rational: truncation toward zero. -/
def pyInt (q : ℚ) : ℤ := if q < 0 then ⌈q⌉ else ⌊q⌋

/-- Embeds `Analyzer._format_time`: format seconds as zero-padded `HH:MM:SS`. -/
def format_time (seconds : ℚ) : List Char :=
  let hours := pyInt (pyFloorDiv seconds 3600)
  let minutes := pyInt (pyFloorDiv (pyMod seconds 3600) 60)
  let secs := pyInt (pyMod seconds 60)
  fmt0 2 hours ++ ":".toList ++ fmt0 2 minutes ++ ":".toList ++ fmt0 2 secs

/-- One transcript segment: keys `start`, `end` (seconds) and `text`.
The Python key `end` is a Lean keyword, hence the field name `stop`. -/
structure TranscriptSeg where
  start : ℚ
  stop : ℚ
  text : List Char

/-- A transcript: the `segments` key of the transcript JSON. -/
structure Transcript where
  segments : List TranscriptSeg

/-- Embeds `Analyzer._format_transcript`: one bracketed time-range entry per
segment, joined with newlines. -/
def format_transcript (t : Transcript) : List Char :=
  List.intercalate "\n".toList
    (t.segments.map fun seg =>
      "[".toList ++ format_time seg.start ++ " - ".toList ++ format_time seg.stop
        ++ "] ".toList ++ seg.text)

/-- Embeds the candidate-extraction step of `Analyzer._parse_response`
(analyzer.py lines 75-86): if the literal text three-backticks-`json`
occurs anywhere, take the text between the first such occurrence and the
next fence and strip it; otherwise, if a bare fence occurs, take the text
between the first fence and the next one; otherwise strip the raw reply.
`none` models the `ValueError` raised when a closing fence is missing. -/
def parse_response_candidate (response : List Char) : Option (List Char) :=
  match findSub "```json".toList response with
  | some i =>
    match findSubFrom "```".toList response (i + 7) with
    | some e => some (pyStrip (pySlice response (i + 7) e))
    | none => none
  | none =>
    match findSub "```".toList response with
    | some i =>
      match findSubFrom "```".toList response (i + 3) with
      | some e => some (pyStrip (pySlice response (i + 3) e))
      | none => none
    | none => some (pyStrip response)

/-- Embeds `Analyzer._parse_response`: extract a candidate, then hand it to
`json.loads` (abstracted as `loads`); any failure becomes the `ValueError`,
modelled as `none`. -/
def parse_response {α : Type} (loads : List Char → Option α) (response : List Char) :
    Option α :=
  (parse_response_candidate response).bind loads

/-- Modelled from the spec: "extraction takes the first fenced block if
present, else the raw trimmed reply", tolerating "with or without a
language tag" — the content of the first fenced block, skipping a `json`
language tag when one immediately follows the opening fence. -/
def specFirstFencedCandidate (r : List Char) : Option (List Char) :=
  match findSub "```".toList r with
  | none => some (pyStrip r)
  | some i =>
    let start := if ("json".toList).isPrefixOf (r.drop (i + 3)) then i + 7 else i + 3
    match findSubFrom "```".toList r start with
    | some e => some (pyStrip (pySlice r start e))
    | none => none

/-- A reply wrapped in a fenced code block with the `json` language tag. -/
def wrapJsonFence (s : List Char) : List Char := "```json\n".toList ++ s ++ "\n```".toList

/-- A reply wrapped in a fenced code block without a language tag. -/
def wrapPlainFence (s : List Char) : List Char := "```\n".toList ++ s ++ "\n```".toList

/-! ### VideoProcessor (src/src/video_processor.py)

FFmpeg invocations are recorded as structured commands; every
`subprocess.run(cmd, check=True)` consults an oracle `FFmpegCmd → Bool`
("did the external process exit 0?") and raises `calledProcessError`
otherwise.  Processing functions return the ordered list of commands
successfully run. -/

/-- One time range from the analysis, keys `start` and `end` (Lean keyword,
hence `stop`). -/
structure TimeRange where
  start : ℚ
  stop : ℚ
deriving DecidableEq

/-- An ffmpeg command as built by VideoProcessor, keeping every
semantically distinct field of the literal Python argument lists.

* `trimVertical input start duration out` stands for
  `ffmpeg -y -i input -ss start -t duration
   -vf crop=ih*9/16:ih,scale=1080:1920 -c:v libx264 -c:a aac -preset fast out`
  as built by `_process_short_form`;
* `trim input start duration vertical out` stands for
  `ffmpeg -y -ss start -i input -t duration -c:v libx264 -c:a aac -preset fast
   [-vf crop=ih*9/16:ih,scale=1080:1920 when vertical] out`
  as built by `_cut_segment`;
* `concatCopy files out` stands for
  `ffmpeg -y -f concat -safe 0 -i concat.txt -c copy out` where the
  manifest `concat.txt` lists `files` in order, one `file '...'` line each
  (lossless stream copy, no re-encode). -/
inductive FFmpegCmd where
  | trimVertical (input : String) (start duration : ℚ) (out : String)
  | trim (input : String) (start duration : ℚ) (vertical : Bool) (out : String)
  | concatCopy (files : List String) (out : String)
deriving DecidableEq

/-- Python exceptions that the embedded fragments can raise. -/
inductive PyErr where
  | calledProcessError
  | exception
deriving DecidableEq

/-- The `-t` duration argument of a command (0 for the concat step). -/
def cmdDuration : FFmpegCmd → ℚ
  | .trimVertical _ _ d _ => d
  | .trim _ _ d _ _ => d
  | .concatCopy _ _ => 0

/-- Embeds `subprocess.run(cmd, check=True)`: record the command if the
external process exits 0, raise `CalledProcessError` otherwise. -/
def runCmd (oracle : FFmpegCmd → Bool) (c : FFmpegCmd) : Except PyErr (List FFmpegCmd) :=
  if oracle c then .ok [c] else .error .calledProcessError

/-- The command built by `_process_short_form` for one clip:
`duration = end - start`, vertical crop and scale filter. -/
def shortFormCmd (input : String) (clip : TimeRange) (out : String) : FFmpegCmd :=
  .trimVertical input clip.start (clip.stop - clip.start) out

/-- Embeds `VideoProcessor._process_short_form` (lines 88-114). -/
def process_short_form (oracle : FFmpegCmd → Bool) (input : String) (clip : TimeRange)
    (out : String) : Except PyErr (List FFmpegCmd) :=
  runCmd oracle (shortFormCmd input clip out)

/-- The command built by `_cut_segment`: `duration = end - start`. -/
def cutSegmentCmd (input : String) (start stop : ℚ) (vertical : Bool) (out : String) :
    FFmpegCmd :=
  .trim input start (stop - start) vertical out

/-- The temporary per-segment file `os.path.join(temp_dir, "segment_%03d.mp4" % i)`. -/
def segPath (tempDir : String) (i : Nat) : String :=
  tempDir ++ "/segment_" ++ padNatS 3 i ++ ".mp4"

/-- The cutting loop of `_concatenate_segments` (lines 159-167): cut each
segment, in listed order, into `segment_000.mp4`, `segment_001.mp4`, ...;
returns the commands run and the temp files created, both in order. -/
def cutLoop (oracle : FFmpegCmd → Bool) (input tempDir : String) :
    List TimeRange → Nat → Except PyErr (List FFmpegCmd × List String)
  | [], _ => .ok ([], [])
  | seg :: rest, i =>
    let path := segPath tempDir i
    let c := cutSegmentCmd input seg.start seg.stop false path
    if oracle c then
      match cutLoop oracle input tempDir rest (i + 1) with
      | .ok (cs, fs) => .ok (c :: cs, path :: fs)
      | .error e => .error e
    else .error .calledProcessError

/-- Embeds `VideoProcessor._concatenate_segments` (lines 144-185): cut all
segments in listed order, write the concat manifest listing the temp files
in that same order, then concatenate with `-c copy`. -/
def concatenate_segments (oracle : FFmpegCmd → Bool) (tempDir input : String)
    (segments : List TimeRange) (out : String) : Except PyErr (List FFmpegCmd) :=
  match cutLoop oracle input tempDir segments 0 with
  | .error e => .error e
  | .ok (cs, files) =>
    let c := FFmpegCmd.concatCopy files out
    if oracle c then .ok (cs ++ [c]) else .error .calledProcessError

/-- Embeds `VideoProcessor._process_long_form` (lines 64-86): empty list is
a no-op, a single segment is one plain cut, several segments are cut and
concatenated. -/
def process_long_form (oracle : FFmpegCmd → Bool) (tempDir input : String)
    (segments : List TimeRange) (out : String) : Except PyErr (List FFmpegCmd) :=
  match segments with
  | [] => .ok []
  | [seg] => runCmd oracle (cutSegmentCmd input seg.start seg.stop false out)
  | _ => concatenate_segments oracle tempDir input segments out

/-- The analysis fields `VideoProcessor.process` reads (`"long_form" in
analysis`, `"short_form" in analysis`); a missing key is `none`. -/
structure AnalysisDict where
  long_form : Option (List TimeRange) := none
  short_form : Option (List TimeRange) := none

/-- The output path of one short clip: `shorts_dir / ("short_%02d.mp4" % i)`. -/
def shortClipPath (shortsDir : String) (i : Nat) : String :=
  shortsDir ++ "/short_" ++ padNatS 2 i ++ ".mp4"

/-- The short-form loop of `VideoProcessor.process` (lines 54-61):
`for i, clip in enumerate(analysis["short_form"], 1)`. -/
def shortLoop (oracle : FFmpegCmd → Bool) (input shortsDir : String) :
    List TimeRange → Nat → Except PyErr (List FFmpegCmd)
  | [], _ => .ok []
  | clip :: rest, i =>
    match process_short_form oracle input clip (shortClipPath shortsDir i) with
    | .ok cs => (shortLoop oracle input shortsDir rest (i + 1)).map (cs ++ ·)
    | .error e => .error e

/-- Embeds `VideoProcessor.process` (lines 25-62): long form first (into
`long_form.mp4`), then the numbered short clips (into `shorts/`); directory
creation and prints carry no information and are elided.  `tempDir` stands
for the fresh temporary directory of `_concatenate_segments`. -/
def process (oracle : FFmpegCmd → Bool) (tempDir input : String) (analysis : AnalysisDict)
    (outputDir : String) : Except PyErr (List FFmpegCmd) :=
  let longPart : Except PyErr (List FFmpegCmd) :=
    match analysis.long_form with
    | some segs => process_long_form oracle tempDir input segs (outputDir ++ "/long_form.mp4")
    | none => .ok []
  match longPart with
  | .error e => .error e
  | .ok cs =>
    match analysis.short_form with
    | some clips => (shortLoop oracle input (outputDir ++ "/shorts") clips 1).map (cs ++ ·)
    | none => .ok cs

/-- Closed form of the successful long-form command trace (derived from the
source; used to state theorems). -/
def longFormCmds (tempDir input : String) (segments : List TimeRange) (out : String) :
    List FFmpegCmd :=
  match segments with
  | [] => []
  | [seg] => [cutSegmentCmd input seg.start seg.stop false out]
  | _ =>
    (segments.enum.map fun p => cutSegmentCmd input p.2.start p.2.stop false (segPath tempDir p.1))
      ++ [FFmpegCmd.concatCopy (segments.enum.map fun p => segPath tempDir p.1) out]

/-- Closed form of the successful long-form trace for an optional field. -/
def optLongFormCmds (tempDir input : String) (segments : Option (List TimeRange))
    (out : String) : List FFmpegCmd :=
  match segments with
  | some segs => longFormCmds tempDir input segs out
  | none => []

/-- Closed form of the successful short-form command trace: one vertical
trim per clip, in input order, numbered from 1. -/
def shortFormCmds (input shortsDir : String) (clips : List TimeRange) : List FFmpegCmd :=
  (clips.enumFrom 1).map fun p => shortFormCmd input p.2 (shortClipPath shortsDir p.1)

/-! ### LLM provider selection (src/src/llm/__init__.py) -/

/-- The keys of the `llm:` configuration block that `get_llm_provider`
reads; a missing key is `none`. -/
structure LLMConfig where
  provider : Option String := none
  model : Option String := none
  api_key_env : Option String := none
  ollama_base_url : Option String := none

/-- Python `s.rstrip("/")` as applied by `OllamaProvider.__init__`. -/
def rstripSlashes (s : String) : String :=
  String.mk ((s.toList.reverse.dropWhile (· = '/')).reverse)

/-- The provider instance returned by `get_llm_provider`; constructing one
performs no network interaction (the Python constructors only store the
key/model/URL). -/
inductive ProviderInstance where
  | openai (apiKey model : String)
  | anthropic (apiKey model : String)
  | ollama (baseUrl model : String)
deriving DecidableEq

/-- The `ValueError`s `get_llm_provider` can raise. -/
inductive ConfigError where
  | unknownProvider (p : String)
  | missingApiKey (envVar : String)
deriving DecidableEq

/-- Python `str.lower()` (the configured provider names are ASCII). -/
def pyLower (s : String) : String := String.mk (s.toList.map Char.toLower)

/-- Embeds `get_llm_provider` (llm/__init__.py lines 12-52); `env` is
`os.environ.get`.  Python `if not api_key` treats both an unset variable
and the empty string as missing.  This is a pure selection function: no
network call occurs before (or while) it returns. -/
def get_llm_provider (env : String → Option String) (config : LLMConfig) :
    Except ConfigError ProviderInstance :=
  let provider := pyLower (config.provider.getD "openai")
  let model := config.model.getD "gpt-4o"
  if provider = "openai" then
    let envVar := config.api_key_env.getD "OPENAI_API_KEY"
    match env envVar with
    | none => .error (.missingApiKey envVar)
    | some key => if key = "" then .error (.missingApiKey envVar) else .ok (.openai key model)
  else if provider = "anthropic" then
    let envVar := config.api_key_env.getD "ANTHROPIC_API_KEY"
    match env envVar with
    | none => .error (.missingApiKey envVar)
    | some key => if key = "" then .error (.missingApiKey envVar) else .ok (.anthropic key model)
  else if provider = "ollama" then
    .ok (.ollama (config.ollama_base_url.getD "http://localhost:11434") model)
  else .error (.unknownProvider provider)

/-! ### Ollama provider (src/src/llm/ollama_provider.py) -/

/-- The state stored by `OllamaProvider.__init__` (base URL with trailing
slashes stripped, model name). -/
structure OllamaState where
  base_url : String
  model : String

/-- Embeds `OllamaProvider.__init__`. -/
def mkOllamaProvider (base_url model : String) : OllamaState :=
  ⟨rstripSlashes base_url, model⟩

/-- The HTTP POST both completion methods make: URL, payload fields
`model`, optional `system`, `prompt`, `stream: false`. -/
structure OllamaRequest where
  url : String
  model : String
  system : Option String
  prompt : String
  stream : Bool
deriving DecidableEq

/-- Network failures: `URLError` from `urlopen`, re-raised by the provider
as `ConnectionError`. -/
inductive NetErr where
  | urlError
  | connectionError
deriving DecidableEq

/-- The request `OllamaProvider.complete` sends (system `none`) or
`complete_with_system` sends (system present). -/
def ollamaRequest (st : OllamaState) (system : Option String) (prompt : String) :
    OllamaRequest :=
  ⟨st.base_url ++ "/api/generate", st.model, system, prompt, false⟩

/-- Embeds `OllamaProvider.complete` (lines 24-52): POST the request, parse
the JSON reply (abstracted as an association list of its string fields, via
the oracle `fetch`), and return `result.get("response", "")`; a `URLError`
becomes a `ConnectionError`. -/
def ollama_complete (fetch : OllamaRequest → Except NetErr (List (String × String)))
    (st : OllamaState) (prompt : String) : Except NetErr String :=
  match fetch (ollamaRequest st none prompt) with
  | .ok obj => .ok ((obj.lookup "response").getD "")
  | .error _ => .error .connectionError

/-- Embeds `OllamaProvider.complete_with_system` (lines 54-84). -/
def ollama_complete_with_system
    (fetch : OllamaRequest → Except NetErr (List (String × String)))
    (st : OllamaState) (system prompt : String) : Except NetErr String :=
  match fetch (ollamaRequest st (some system) prompt) with
  | .ok obj => .ok ((obj.lookup "response").getD "")
  | .error _ => .error .connectionError

/-! ### ContentGenerator (src/src/content_generator.py) -/

/-- The fixed table `ContentGenerator.CONTENT_TYPES`:
(content type, prompt file, output file). -/
def CONTENT_TYPES : List (String × String × String) :=
  [("twitter_thread", "twitter_thread.txt", "twitter_thread.md"),
   ("reddit_post", "reddit_post.txt", "reddit_post.md"),
   ("medium_article", "medium_article.txt", "medium_article.md"),
   ("tweets", "tweets.txt", "tweets.md"),
   ("telegram_post", "telegram_post.txt", "telegram_post.md")]

/-- The loop body sequence of `ContentGenerator.generate_all` (lines
50-62): for each table entry, call `generate` (template load + LLM call,
abstracted as the oracle `gen` of the content type and prompt file), then
write the result to the output file.  There is no `try`/`except`: the
first raised exception propagates and ends the loop.  Returns the final
outcome and the (file, content) pairs written, in order. -/
def genLoop (gen : String → String → Except PyErr String) :
    List (String × String × String) → Except PyErr Unit × List (String × String)
  | [] => (.ok (), [])
  | (ct, pf, of) :: rest =>
    match gen ct pf with
    | .ok content =>
      let r := genLoop gen rest
      (r.1, (of, content) :: r.2)
    | .error e => (.error e, [])

/-- Embeds `ContentGenerator.generate_all` (lines 30-62). -/
def generate_all (gen : String → String → Except PyErr String) :
    Except PyErr Unit × List (String × String) :=
  genLoop gen CONTENT_TYPES

/-- Modelled from the amended reading of the spec sentence: the first
fenced block's content with any language tag left inside the candidate
(what the source's bare-fence branch actually extracts). -/
def specFirstFencedRawCandidate (r : List Char) : Option (List Char) :=
  match findSub "```".toList r with
  | none => some (pyStrip r)
  | some i =>
    match findSubFrom "```".toList r (i + 3) with
    | some e => some (pyStrip (pySlice r (i + 3) e))
    | none => none

/-- A reply that is itself valid JSON (a one-element array whose string
mentions a json fence) on which extraction misbehaves; used as concrete
counterexample input. -/
def cexJsonReply : List Char := "[\"```json 1 ```\"]".toList

/-- A concrete stand-in for `json.loads`, consistent with the real parser
on the inputs of interest: it accepts the decimal literal `1` and the
array `cexJsonReply`, and rejects everything else. -/
def loadsCex (l : List Char) : Option Nat :=
  if l = "1".toList then some 1 else if l = cexJsonReply then some 2 else none

/-- A generation oracle that fails exactly on the `reddit_post` content
type and returns the text `X` for every other type. -/
def genFailReddit : String → String → Except PyErr String :=
  fun ct _ => if ct = "reddit_post" then .error .exception else .ok "X"

/-! ### Helper lemmas: successful-trace closed forms for the video processor -/

/-- Under an ffmpeg that accepts every command, the cutting loop of
`_concatenate_segments` succeeds and runs one cut per listed segment, in
listed order, into the numbered temp files. -/
theorem cutLoop_ok (oracle : FFmpegCmd → Bool) (h : ∀ c, oracle c = true)
    (input tempDir : String) :
    ∀ (segs : List TimeRange) (i : Nat),
      cutLoop oracle input tempDir segs i =
        .ok ((segs.enumFrom i).map fun p =>
              cutSegmentCmd input p.2.start p.2.stop false (segPath tempDir p.1),
            (segs.enumFrom i).map fun p => segPath tempDir p.1) := by
  intro segs
  induction segs with
  | nil => intro i; rfl
  | cons seg rest ih =>
    intro i
    simp only [cutLoop, h, if_true, ih (i + 1), List.enumFrom, List.map_cons]

/-- Under an ffmpeg that accepts every command, `_concatenate_segments`
cuts all segments in listed order and then runs the stream-copy concat
whose manifest lists the temp files in the same order. -/
theorem concatenate_segments_ok (oracle : FFmpegCmd → Bool) (h : ∀ c, oracle c = true)
    (tempDir input : String) (segs : List TimeRange) (out : String) :
    concatenate_segments oracle tempDir input segs out =
      .ok (((segs.enum).map fun p =>
              cutSegmentCmd input p.2.start p.2.stop false (segPath tempDir p.1))
           ++ [FFmpegCmd.concatCopy ((segs.enum).map fun p => segPath tempDir p.1) out]) := by
  simp only [concatenate_segments, cutLoop_ok oracle h, h, if_true, List.enum]

/-- Under an ffmpeg that accepts every command, `_process_long_form`
produces exactly the closed-form trace `longFormCmds`. -/
theorem process_long_form_ok (oracle : FFmpegCmd → Bool) (h : ∀ c, oracle c = true)
    (tempDir input : String) (segs : List TimeRange) (out : String) :
    process_long_form oracle tempDir input segs out = .ok (longFormCmds tempDir input segs out) := by
  match segs with
  | [] => rfl
  | [seg] => simp only [process_long_form, longFormCmds, runCmd, h, if_true]
  | a :: b :: rest =>
    simp only [process_long_form, longFormCmds, concatenate_segments_ok oracle h]

/-- Under an ffmpeg that accepts every command, the short-clip loop of
`process` succeeds and runs one vertical trim per clip, in input order,
into the numbered clip files. -/
theorem shortLoop_ok (oracle : FFmpegCmd → Bool) (h : ∀ c, oracle c = true)
    (input shortsDir : String) :
    ∀ (clips : List TimeRange) (i : Nat),
      shortLoop oracle input shortsDir clips i =
        .ok ((clips.enumFrom i).map fun p => shortFormCmd input p.2 (shortClipPath shortsDir p.1)) := by
  intro clips
  induction clips with
  | nil => intro i; rfl
  | cons clip rest ih =>
    intro i
    simp only [shortLoop, process_short_form, runCmd, h, if_true, ih (i + 1),
      List.enumFrom, List.map_cons, Except.map, List.singleton_append]

/-- Under an ffmpeg that accepts every command, `VideoProcessor.process`
produces the long-form trace followed by the short-form trace. -/
theorem process_ok (oracle : FFmpegCmd → Bool) (h : ∀ c, oracle c = true)
    (tempDir input : String) (analysis : AnalysisDict) (outputDir : String) :
    process oracle tempDir input analysis outputDir =
      .ok (optLongFormCmds tempDir input analysis.long_form (outputDir ++ "/long_form.mp4")
           ++ (match analysis.short_form with
               | some clips => shortFormCmds input (outputDir ++ "/shorts") clips
               | none => [])) := by
  rcases hl : analysis.long_form with _ | segs <;> rcases hs : analysis.short_form with _ | clips <;>
    simp only [process, optLongFormCmds, hl, hs, process_long_form_ok oracle h,
      shortLoop_ok oracle h, Except.map, shortFormCmds, List.nil_append, List.append_nil]

/-! ### Helper lemmas: the content-generation loop -/

/-- If every entry of a prefix of the table generates successfully and the
next entry fails, the loop stops there: the outcome is the failing error
and exactly the prefix entries' files are written, in order. -/
theorem genLoop_prefix_fail (gen : String → String → Except PyErr String)
    (e : String × String × String) (err : PyErr) (rest : List (String × String × String))
    (hfail : gen e.1 e.2.1 = .error err) :
    ∀ pre : List (String × String × String),
      (∀ p ∈ pre, ∃ v, gen p.1 p.2.1 = .ok v) →
      (genLoop gen (pre ++ e :: rest)).1 = .error err ∧
      (genLoop gen (pre ++ e :: rest)).2.map Prod.fst = pre.map fun p => p.2.2 := by
  intro pre
  induction pre with
  | nil =>
    intro _
    simp only [List.nil_append, List.map_nil]
    match e, hfail with
    | (ct, pf, of), hfail => simp [genLoop, hfail]
  | cons p pre ih =>
    intro hok
    obtain ⟨v, hv⟩ := hok p (by simp)
    have hrest := ih fun q hq => hok q (by simp [hq])
    match p, hv with
    | (ct, pf, of), hv =>
      simp only [List.cons_append, genLoop, hv, List.map_cons]
      exact ⟨hrest.1, congrArg (fun l => of :: l) hrest.2⟩

/-! ### Helper lemmas: substring search and fence extraction -/

/-- The backtick character (obtained from a string literal). -/
def tickC : Char := "`".toList.headD ' '

theorem isPrefixOf_trans {a b c : List Char} (h1 : a.isPrefixOf b = true)
    (h2 : b.isPrefixOf c = true) : a.isPrefixOf c = true := by
  rw [List.isPrefixOf_iff_prefix] at h1 h2 ⊢
  exact h1.trans h2

/-- A needle that matched leaves the haystack in `needle ++ rest` form. -/
theorem exists_append_of_isPrefixOf {n x : List Char} (h : n.isPrefixOf x = true) :
    ∃ rest, x = n ++ rest := by
  rw [List.isPrefixOf_iff_prefix] at h
  obtain ⟨t, ht⟩ := h
  exact ⟨t, ht.symm⟩

/-- A match of a needle that extends the fence starts with three backticks. -/
theorem eq_tick3_of_isPrefixOf {n x : List Char} (hn : ("```".toList).isPrefixOf n = true)
    (h : n.isPrefixOf x = true) : ∃ rest, x = tickC :: tickC :: tickC :: rest := by
  obtain ⟨rest, hr⟩ := exists_append_of_isPrefixOf (isPrefixOf_trans hn h)
  exact ⟨rest, hr⟩

theorem containsSub_cons_false {n : List Char} {c : Char} {t : List Char}
    (h : containsSub n (c :: t) = false) :
    n.isPrefixOf (c :: t) = false ∧ containsSub n t = false := by
  have h' : (n.isPrefixOf (c :: t) || containsSub n t) = false := h
  exact Bool.or_eq_false_iff.mp h'

theorem containsSub_of_isPrefixOf {n : List Char} {c : Char} {t : List Char}
    (h : n.isPrefixOf (c :: t) = true) : containsSub n (c :: t) = true := by
  have : containsSub n (c :: t) = (n.isPrefixOf (c :: t) || containsSub n t) := rfl
  rw [this, h, Bool.true_or]

/-- Monotonicity: an occurrence of a longer needle yields an occurrence of
any of its prefixes. -/
theorem containsSub_mono {n₁ n₂ : List Char} (hp : n₁.isPrefixOf n₂ = true) :
    ∀ l, containsSub n₂ l = true → containsSub n₁ l = true := by
  intro l
  induction l with
  | nil =>
    intro h
    have h2 : n₂ = [] := List.isEmpty_iff.mp h
    rw [h2] at hp
    have h1 : n₁ = [] := List.prefix_nil.mp (List.isPrefixOf_iff_prefix.mp hp)
    show n₁.isEmpty = true
    rw [h1]
    rfl
  | cons c t ih =>
    intro h
    have h' : (n₂.isPrefixOf (c :: t) || containsSub n₂ t) = true := h
    rcases Bool.or_eq_true_iff.mp h' with h1 | h2
    · exact containsSub_of_isPrefixOf (isPrefixOf_trans hp h1)
    · show (n₁.isPrefixOf (c :: t) || containsSub n₁ t) = true
      rw [ih h2, Bool.or_true]

/-- `findSubAux` succeeds exactly when the needle occurs. -/
theorem findSubAux_isSome (n : List Char) :
    ∀ (l : List Char) (i : Nat), (findSubAux n l i).isSome = containsSub n l := by
  intro l
  induction l with
  | nil => intro i; by_cases h : n.isEmpty <;> simp [findSubAux, containsSub, h]
  | cons c t ih =>
    intro i
    by_cases h : n.isPrefixOf (c :: t) <;> simp [findSubAux, containsSub, h, ih (i + 1)]

theorem findSub_eq_none_of_not_contains {n l : List Char} (h : containsSub n l = false) :
    findSub n l = none := by
  have h2 := findSubAux_isSome n l 0
  rw [h] at h2
  exact Option.not_isSome_iff_eq_none.mp (by simp [findSub, h2])

/-- The returned index is at least the start index. -/
theorem le_of_findSubAux_some (n : List Char) :
    ∀ (l : List Char) (i j : Nat), findSubAux n l i = some j → i ≤ j := by
  intro l
  induction l with
  | nil =>
    intro i j h
    by_cases he : n.isEmpty <;> simp [findSubAux, he] at h
    omega
  | cons c t ih =>
    intro i j h
    by_cases hp : n.isPrefixOf (c :: t)
    · simp [findSubAux, hp] at h
      omega
    · simp only [findSubAux, hp, if_false, Bool.false_eq_true] at h
      have := ih (i + 1) j h
      omega

/-- A successful search returns a position where the needle is a prefix of
the remaining text. -/
theorem findSubAux_some_isPrefixOf (n : List Char) :
    ∀ (l : List Char) (i j : Nat), findSubAux n l i = some j →
      n.isPrefixOf (l.drop (j - i)) = true := by
  intro l
  induction l with
  | nil =>
    intro i j h
    by_cases he : n.isEmpty
    · simp [List.isPrefixOf_iff_prefix, List.isEmpty_iff.mp he]
    · simp [findSubAux, he] at h
  | cons c t ih =>
    intro i j h
    by_cases hp : n.isPrefixOf (c :: t)
    · simp only [findSubAux, hp, if_true, Option.some.injEq] at h
      subst h
      simpa using hp
    · simp only [findSubAux, hp, if_false, Bool.false_eq_true] at h
      have hj := ih (i + 1) j h
      have hij : i + 1 ≤ j := le_of_findSubAux_some n t (i + 1) j h
      have harith : j - i = (j - (i + 1)) + 1 := by omega
      rw [harith]
      simpa using hj

/-- Skipping lemma: searching for a needle that starts with the fence, in
`s ++ m`, where `s` contains no fence and `m` does not start with a
backtick, is the same as searching in `m` (no match can start inside `s`,
not even straddling the boundary). -/
theorem findSubAux_skip {needle : List Char} (hn : ("```".toList).isPrefixOf needle = true)
    {m : List Char} (hm : m.headD ' ' ≠ tickC) :
    ∀ (s : List Char), containsSub "```".toList s = false → ∀ i,
      findSubAux needle (s ++ m) i = findSubAux needle m (i + s.length) := by
  intro s
  induction s with
  | nil => intro _ i; simp
  | cons c s' ih =>
    intro hs i
    obtain ⟨hnp, hs'⟩ := containsSub_cons_false hs
    have hc : needle.isPrefixOf (c :: (s' ++ m)) = false := by
      by_contra hb
      have htrue : needle.isPrefixOf (c :: (s' ++ m)) = true := by
        cases hx : needle.isPrefixOf (c :: (s' ++ m)) with
        | true => rfl
        | false => exact absurd hx hb
      obtain ⟨rest, hr⟩ := eq_tick3_of_isPrefixOf hn htrue
      match s', hr, hs' with
      | [], hr, _ =>
        -- c :: m  =  ` :: ` :: ` :: rest  forces m to start with a backtick
        have hm2 : m = tickC :: tickC :: rest := by
          have := congrArg List.tail hr
          simpa using this
        rw [hm2] at hm
        exact hm rfl
      | [d], hr, _ =>
        -- c :: d :: m  =  ` :: ` :: ` :: rest  forces m to start with a backtick
        have hm2 : m = tickC :: rest := by
          have := congrArg (fun l => List.tail (List.tail l)) hr
          simpa using this
        rw [hm2] at hm
        exact hm rfl
      | d :: e :: s'', hr, hs' =>
        -- three backticks lie inside c :: s' : contradiction with no-fence
        have hcd : c = tickC ∧ d = tickC ∧ e = tickC := by
          have h0 := congrArg (fun l => List.headD l ' ') hr
          have h1 := congrArg (fun l => List.headD (List.tail l) ' ') hr
          have h2 := congrArg (fun l => List.headD (List.tail (List.tail l)) ' ') hr
          simp at h0 h1 h2
          exact ⟨h0, h1, h2⟩
        have hpf : ("```".toList).isPrefixOf (c :: d :: e :: s'') = true := by
          have hfl : "```".toList = tickC :: tickC :: tickC :: [] := rfl
          rw [hfl, List.isPrefixOf_iff_prefix]
          refine ⟨s'', ?_⟩
          simp [hcd.1, hcd.2.1, hcd.2.2]
        have : containsSub "```".toList (c :: d :: e :: s'') = true :=
          containsSub_of_isPrefixOf hpf
        rw [show containsSub "```".toList (c :: d :: e :: s'') =
              (("```".toList).isPrefixOf (c :: d :: e :: s'') || containsSub "```".toList (d :: e :: s'')) from rfl,
            hpf] at hs
        simp at hs
    have hstep : findSubAux needle ((c :: s') ++ m) i = findSubAux needle (s' ++ m) (i + 1) := by
      simp only [List.cons_append, findSubAux, List.append_eq, hc, if_false, Bool.false_eq_true]
    rw [hstep, ih hs' (i + 1)]
    have : i + 1 + s'.length = i + (c :: s').length := by simp [List.length_cons]; omega
    rw [this]

/-- A needle that extends the fence cannot match at a position whose first
character is not a backtick. -/
theorem isPrefixOf_false_head {needle : List Char} (hn : ("```".toList).isPrefixOf needle = true)
    {c : Char} (hc : c ≠ tickC) (x : List Char) : needle.isPrefixOf (c :: x) = false := by
  cases h : needle.isPrefixOf (c :: x) with
  | false => rfl
  | true =>
    obtain ⟨rest, hr⟩ := eq_tick3_of_isPrefixOf hn h
    have := congrArg (fun l => l.headD ' ') hr
    simp at this
    exact absurd this hc

/-- A needle that extends the fence cannot match at a position whose second
character is not a backtick. -/
theorem isPrefixOf_false_second {needle : List Char} (hn : ("```".toList).isPrefixOf needle = true)
    {a b : Char} (hb : b ≠ tickC) (x : List Char) : needle.isPrefixOf (a :: b :: x) = false := by
  cases h : needle.isPrefixOf (a :: b :: x) with
  | false => rfl
  | true =>
    obtain ⟨rest, hr⟩ := eq_tick3_of_isPrefixOf hn h
    have := congrArg (fun l => l.tail.headD ' ') hr
    simp at this
    exact absurd this hb

/-- A needle that extends the fence cannot match at a position whose third
character is not a backtick. -/
theorem isPrefixOf_false_third {needle : List Char} (hn : ("```".toList).isPrefixOf needle = true)
    {a b c : Char} (hc : c ≠ tickC) (x : List Char) :
    needle.isPrefixOf (a :: b :: c :: x) = false := by
  cases h : needle.isPrefixOf (a :: b :: c :: x) with
  | false => rfl
  | true =>
    obtain ⟨rest, hr⟩ := eq_tick3_of_isPrefixOf hn h
    have := congrArg (fun l => l.tail.tail.headD ' ') hr
    simp at this
    exact absurd this hc

/-- The json-tagged needle cannot match three backticks followed by a
newline. -/
theorem fjson_isPrefixOf_false_nl (x : List Char) :
    ("```json".toList).isPrefixOf (tickC :: tickC :: tickC :: '\n' :: x) = false := by
  cases h : ("```json".toList).isPrefixOf (tickC :: tickC :: tickC :: '\n' :: x) with
  | false => rfl
  | true =>
    obtain ⟨rest, hr⟩ := exists_append_of_isPrefixOf h
    have : ("```json".toList ++ rest : List Char) =
        tickC :: tickC :: tickC :: 'j' :: 's' :: 'o' :: 'n' :: rest := rfl
    rw [this] at hr
    have h4 := congrArg (fun l => l.tail.tail.tail.headD ' ') hr
    simp at h4

/-- Search for the closing fence after the opening of a wrapped reply:
the first fence in `'\n' :: s ++ "\n```"` is the final one. -/
theorem findSubAux_fence_after (s : List Char) (hs : containsSub "```".toList s = false)
    (k : Nat) :
    findSubAux ("```".toList) ('\n' :: (s ++ "\n```".toList)) k = some (k + s.length + 2) := by
  have hfence : ("```".toList).isPrefixOf ("```".toList) = true := by decide
  have h1 : ("```".toList).isPrefixOf ('\n' :: (s ++ "\n```".toList)) = false :=
    isPrefixOf_false_head hfence (by decide) _
  have hstep : findSubAux ("```".toList) ('\n' :: (s ++ "\n```".toList)) k =
      findSubAux ("```".toList) (s ++ "\n```".toList) (k + 1) := by
    simp only [findSubAux, h1, if_false, Bool.false_eq_true]
  rw [hstep, findSubAux_skip hfence (by decide) s hs (k + 1)]
  have hnl : ("\n```".toList : List Char) = '\n' :: "```".toList := rfl
  rw [hnl]
  have h2 : ("```".toList).isPrefixOf ('\n' :: "```".toList) = false := by decide
  have hstep2 : findSubAux ("```".toList) ('\n' :: "```".toList) (k + 1 + s.length) =
      findSubAux ("```".toList) ("```".toList) (k + 1 + s.length + 1) := by
    simp only [findSubAux, h2, if_false, Bool.false_eq_true]
  rw [hstep2]
  have hstep3 : findSubAux ("```".toList) ("```".toList) (k + 1 + s.length + 1) =
      some (k + 1 + s.length + 1) := by
    have : ("```".toList : List Char) = tickC :: "``".toList := rfl
    rw [this]
    simp only [findSubAux, show (tickC :: "``".toList).isPrefixOf (tickC :: "``".toList)
      = true from by decide, if_true]
  rw [hstep3]
  congr 1
  omega

/-- In a json-tag wrapped no-fence reply, the tagged needle matches at 0. -/
theorem findSub_fjson_wrapJson (s : List Char) :
    findSub ("```json".toList) (wrapJsonFence s) = some 0 := by
  have hw : wrapJsonFence s = "```json".toList ++ ('\n' :: (s ++ "\n```".toList)) := rfl
  have hp : ("```json".toList).isPrefixOf (wrapJsonFence s) = true := by
    rw [List.isPrefixOf_iff_prefix, hw]
    exact ⟨_, rfl⟩
  have hw2 : wrapJsonFence s =
      tickC :: tickC :: tickC :: 'j' :: 's' :: 'o' :: 'n' :: '\n' :: (s ++ "\n```".toList) := rfl
  show findSubAux ("```json".toList) (wrapJsonFence s) 0 = some 0
  rw [hw2] at hp ⊢
  simp only [findSubAux, hp, if_true]

/-- The closing fence of a json-tag wrapped no-fence reply sits right after
the payload. -/
theorem findSubFrom_fence_wrapJson (s : List Char) (hs : containsSub "```".toList s = false) :
    findSubFrom ("```".toList) (wrapJsonFence s) 7 = some (s.length + 9) := by
  have hd : (wrapJsonFence s).drop 7 = '\n' :: (s ++ "\n```".toList) := rfl
  unfold findSubFrom
  rw [hd]
  show (findSubAux ("```".toList) ('\n' :: (s ++ "\n```".toList)) 0).map (· + 7) = _
  rw [findSubAux_fence_after s hs 0]
  show some (0 + s.length + 2 + 7) = some (s.length + 9)
  congr 1
  omega

/-- In a plain-fence wrapped no-fence reply, the tagged needle never
matches. -/
theorem findSub_fjson_wrapPlain (s : List Char) (hs : containsSub "```".toList s = false) :
    findSub ("```json".toList) (wrapPlainFence s) = none := by
  have hfj : ("```".toList).isPrefixOf ("```json".toList) = true := by decide
  have hw : wrapPlainFence s = tickC :: tickC :: tickC :: '\n' :: (s ++ "\n```".toList) := rfl
  show findSubAux ("```json".toList) (wrapPlainFence s) 0 = none
  rw [hw]
  have c0 := fjson_isPrefixOf_false_nl (s ++ "\n```".toList)
  have c1 : ("```json".toList).isPrefixOf (tickC :: tickC :: '\n' :: (s ++ "\n```".toList)) = false :=
    isPrefixOf_false_third hfj (by decide) _
  have c2 : ("```json".toList).isPrefixOf (tickC :: '\n' :: (s ++ "\n```".toList)) = false :=
    isPrefixOf_false_second hfj (by decide) _
  have c3 : ("```json".toList).isPrefixOf ('\n' :: (s ++ "\n```".toList)) = false :=
    isPrefixOf_false_head hfj (by decide) _
  simp only [findSubAux, c0, c1, c2, c3, if_false, Bool.false_eq_true]
  rw [findSubAux_skip hfj (by decide) s hs 4]
  have hnl : ("\n```".toList : List Char) = '\n' :: tickC :: tickC :: tickC :: [] := rfl
  rw [hnl]
  have d0 : ("```json".toList).isPrefixOf ('\n' :: tickC :: tickC :: tickC :: []) = false := by decide
  have d1 : ("```json".toList).isPrefixOf (tickC :: tickC :: tickC :: []) = false := by decide
  have d2 : ("```json".toList).isPrefixOf (tickC :: tickC :: []) = false := by decide
  have d3 : ("```json".toList).isPrefixOf (tickC :: []) = false := by decide
  simp only [findSubAux, d0, d1, d2, d3, if_false, Bool.false_eq_true]
  simp only [show (("```json".toList : List Char).isEmpty) = false from rfl,
    Bool.false_eq_true, if_false]

/-- In a plain-fence wrapped reply, the fence matches at 0. -/
theorem findSub_fence_wrapPlain (s : List Char) :
    findSub ("```".toList) (wrapPlainFence s) = some 0 := by
  have hw : wrapPlainFence s = "```".toList ++ ('\n' :: (s ++ "\n```".toList)) := rfl
  have hp : ("```".toList).isPrefixOf (wrapPlainFence s) = true := by
    rw [List.isPrefixOf_iff_prefix, hw]
    exact ⟨_, rfl⟩
  have hw2 : wrapPlainFence s = tickC :: tickC :: tickC :: '\n' :: (s ++ "\n```".toList) := rfl
  show findSubAux ("```".toList) (wrapPlainFence s) 0 = some 0
  rw [hw2] at hp ⊢
  simp only [findSubAux, hp, if_true]

/-- The closing fence of a plain-fence wrapped no-fence reply sits right
after the payload. -/
theorem findSubFrom_fence_wrapPlain (s : List Char) (hs : containsSub "```".toList s = false) :
    findSubFrom ("```".toList) (wrapPlainFence s) 3 = some (s.length + 5) := by
  have hd : (wrapPlainFence s).drop 3 = '\n' :: (s ++ "\n```".toList) := rfl
  unfold findSubFrom
  rw [hd]
  show (findSubAux ("```".toList) ('\n' :: (s ++ "\n```".toList)) 0).map (· + 3) = _
  rw [findSubAux_fence_after s hs 0]
  show some (0 + s.length + 2 + 3) = some (s.length + 5)
  congr 1
  omega

/-! ### Helper lemmas: strip and slice -/

theorem pyStrip_cons_of_space {c : Char} (hc : pySpace c = true) (l : List Char) :
    pyStrip (c :: l) = pyStrip l := by
  unfold pyStrip
  rw [List.dropWhile_cons, hc]
  simp

theorem pyStrip_append_of_space (l : List Char) {c : Char} (hc : pySpace c = true) :
    pyStrip (l ++ [c]) = pyStrip l := by
  unfold pyStrip
  rw [List.dropWhile_append]
  by_cases h : (l.dropWhile pySpace).isEmpty
  · rw [if_pos h]
    have h1 : List.dropWhile pySpace [c] = ([] : List Char) := by
      rw [List.dropWhile_cons, hc]
      simp
    rw [h1, List.isEmpty_iff.mp h]
  · rw [if_neg h, List.reverse_append]
    have h2 : ([c] : List Char).reverse = [c] := rfl
    rw [h2, List.singleton_append, List.dropWhile_cons, hc]
    simp

theorem pySlice_wrapJson (s : List Char) :
    pySlice (wrapJsonFence s) 7 (s.length + 9) = '\n' :: (s ++ ['\n']) := by
  unfold pySlice
  rw [show (wrapJsonFence s).drop 7 = '\n' :: (s ++ "\n```".toList) from rfl]
  rw [show s.length + 9 - 7 = s.length + 2 from by omega]
  rw [show s.length + 2 = (s.length + 1) + 1 from rfl]
  rw [List.take_succ_cons, List.take_append_eq_append_take]
  rw [List.take_of_length_le (by omega)]
  congr 1
  rw [show s.length + 1 - s.length = 1 from by omega]
  rfl

theorem pySlice_wrapPlain (s : List Char) :
    pySlice (wrapPlainFence s) 3 (s.length + 5) = '\n' :: (s ++ ['\n']) := by
  unfold pySlice
  rw [show (wrapPlainFence s).drop 3 = '\n' :: (s ++ "\n```".toList) from rfl]
  rw [show s.length + 5 - 3 = s.length + 2 from by omega]
  rw [show s.length + 2 = (s.length + 1) + 1 from rfl]
  rw [List.take_succ_cons, List.take_append_eq_append_take]
  rw [List.take_of_length_le (by omega)]
  congr 1
  rw [show s.length + 1 - s.length = 1 from by omega]
  rfl

/-! ### Helper lemmas: extraction candidates of wrapped and bare replies -/

theorem candidate_bare (s : List Char) (hs : containsSub "```".toList s = false) :
    parse_response_candidate s = some (pyStrip s) := by
  have hfj : containsSub "```json".toList s = false := by
    cases h : containsSub "```json".toList s with
    | false => rfl
    | true =>
      have := @containsSub_mono "```".toList "```json".toList (by decide) s h
      rw [hs] at this
      exact absurd this (by simp)
  unfold parse_response_candidate
  rw [findSub_eq_none_of_not_contains hfj, findSub_eq_none_of_not_contains hs]

theorem candidate_wrapJson (s : List Char) (hs : containsSub "```".toList s = false) :
    parse_response_candidate (wrapJsonFence s) = some (pyStrip s) := by
  unfold parse_response_candidate
  simp only [findSub_fjson_wrapJson s, Nat.zero_add, findSubFrom_fence_wrapJson s hs,
    pySlice_wrapJson s]
  rw [pyStrip_cons_of_space (by decide) _, pyStrip_append_of_space _ (by decide)]

theorem candidate_wrapPlain (s : List Char) (hs : containsSub "```".toList s = false) :
    parse_response_candidate (wrapPlainFence s) = some (pyStrip s) := by
  unfold parse_response_candidate
  simp only [findSub_fjson_wrapPlain s hs, findSub_fence_wrapPlain s, Nat.zero_add,
    findSubFrom_fence_wrapPlain s hs, pySlice_wrapPlain s]
  rw [pyStrip_cons_of_space (by decide) _, pyStrip_append_of_space _ (by decide)]

/-! ### Helper lemmas: decimal digits and line splitting -/

theorem digitChar_ne_nl (d : Nat) : digitChar d ≠ '\n' := by
  unfold digitChar
  split <;> decide

theorem mem_natReprAux : ∀ (fuel n : Nat) (acc : List Char) (c : Char),
    c ∈ natReprAux fuel n acc → c ∈ acc ∨ ∃ d, c = digitChar d := by
  intro fuel
  induction fuel with
  | zero => intro n acc c h; exact Or.inl h
  | succ fuel ih =>
    intro n acc c h
    by_cases hn : n < 10
    · simp only [natReprAux, hn, if_true] at h
      rcases List.mem_cons.mp h with h1 | h2
      · exact Or.inr ⟨n, h1⟩
      · exact Or.inl h2
    · simp only [natReprAux, hn, if_false] at h
      rcases ih (n / 10) (digitChar (n % 10) :: acc) c h with h1 | h2
      · rcases List.mem_cons.mp h1 with h3 | h4
        · exact Or.inr ⟨n % 10, h3⟩
        · exact Or.inl h4
      · exact Or.inr h2

theorem natRepr_not_nl (n : Nat) : '\n' ∉ natRepr n := by
  intro h
  rcases mem_natReprAux (n + 1) n [] '\n' h with h1 | ⟨d, hd⟩
  · simp at h1
  · exact digitChar_ne_nl d hd.symm

theorem padNat_not_nl (w n : Nat) : '\n' ∉ padNat w n := by
  intro h
  rcases List.mem_append.mp h with h1 | h2
  · have := List.eq_of_mem_replicate h1
    simp at this
  · exact natRepr_not_nl n h2

theorem fmt0_not_nl (w : Nat) (z : ℤ) : '\n' ∉ fmt0 w z := by
  unfold fmt0
  by_cases hz : z < 0
  · rw [if_pos hz]
    intro h
    rcases List.mem_cons.mp h with h1 | h2
    · simp at h1
    · exact padNat_not_nl _ _ h2
  · rw [if_neg hz]
    exact padNat_not_nl _ _

theorem format_time_not_nl (q : ℚ) : '\n' ∉ format_time q := by
  unfold format_time
  intro h
  simp only [List.mem_append] at h
  rcases h with ((((h | h) | h) | h) | h)
  · exact fmt0_not_nl _ _ h
  · simp at h
  · exact fmt0_not_nl _ _ h
  · simp at h
  · exact fmt0_not_nl _ _ h

theorem pyLines_single (e : List Char) (hne : e ≠ []) (hnl : '\n' ∉ e) : pyLines e = [e] := by
  induction e with
  | nil => exact absurd rfl hne
  | cons c t ih =>
    have hc : c ≠ '\n' := fun h => hnl (by rw [h]; exact List.mem_cons_self _ _)
    by_cases ht : t = []
    · subst ht
      simp [pyLines, hc]
    · have := ih ht (fun h => hnl (List.mem_cons_of_mem c h))
      simp only [pyLines, hc, if_false, this]

theorem pyLines_append_nl (e m : List Char) (hnl : '\n' ∉ e) :
    pyLines (e ++ '\n' :: m) = e :: pyLines m := by
  induction e with
  | nil => simp [pyLines]
  | cons c t ih =>
    have hc : c ≠ '\n' := fun h => hnl (by rw [h]; exact List.mem_cons_self _ _)
    have ht := ih (fun h => hnl (List.mem_cons_of_mem c h))
    simp only [List.cons_append, pyLines, hc, if_false, List.append_eq, ht]

theorem intercalate_cons₂ (sep : List Char) (a b : List Char) (l : List (List Char)) :
    List.intercalate sep (a :: b :: l) = a ++ (sep ++ List.intercalate sep (b :: l)) := by
  simp [List.intercalate, List.intersperse_cons_cons]

/-- Splitting the newline-joined listing recovers exactly the entries,
provided each entry is nonempty and newline-free. -/
theorem pyLines_intercalate :
    ∀ es : List (List Char), (∀ e ∈ es, e ≠ [] ∧ '\n' ∉ e) →
      pyLines (List.intercalate "\n".toList es) = es := by
  intro es
  induction es with
  | nil => intro _; rfl
  | cons a l ih =>
    intro h
    match l with
    | [] =>
      have ha := h a (by simp)
      rw [show List.intercalate "\n".toList [a] = a from by simp [List.intercalate]]
      exact pyLines_single a ha.1 ha.2
    | b :: l' =>
      have ha := h a (by simp)
      rw [show ("\n".toList : List Char) = ['\n'] from rfl, intercalate_cons₂]
      rw [show (['\n'] : List Char) ++ List.intercalate ['\n'] (b :: l') =
            '\n' :: List.intercalate ['\n'] (b :: l') from rfl]
      rw [pyLines_append_nl a _ ha.2]
      have := ih (fun e he => h e (List.mem_cons_of_mem a he))
      rw [show ("\n".toList : List Char) = ['\n'] from rfl] at this
      rw [this]

/-! ### Claim theorems -/

/-- Claim C1 counterexample: with `end = start` (a zero-duration range) and
an external ffmpeg that accepts the command, both the short-form operation
and the single-range long-form cut succeed without any error, issuing a
command whose requested duration is `10 - 10`: the code does not fail on a
violated range invariant. -/
theorem C1_counterexample :
    process_short_form (fun _ => true) "in.mp4" ⟨10, 10⟩ "clip.mp4" =
      .ok [FFmpegCmd.trimVertical "in.mp4" 10 (10 - 10) "clip.mp4"] ∧
    process_long_form (fun _ => true) "tmp" "in.mp4" [⟨10, 10⟩] "long.mp4" =
      .ok [FFmpegCmd.trim "in.mp4" 10 (10 - 10) false "long.mp4"] ∧
    (10 : ℚ) ≤ 10 :=
  ⟨rfl, rfl, le_refl 10⟩

/-- Claim C1 amended: neither `_process_short_form` nor `_cut_segment`
validates `end > start`; with `end ≤ start` they issue an ffmpeg command
whose `-t` duration `end - start` is non-positive, and the operation fails
exactly when the external ffmpeg process exits nonzero (`check=True`) —
the code itself guarantees no failure and no validation. -/
theorem C1_amended (oracle : FFmpegCmd → Bool) (input tempDir out : String) (clip : TimeRange)
    (h : clip.stop ≤ clip.start) :
    cmdDuration (shortFormCmd input clip out) ≤ 0 ∧
    cmdDuration (cutSegmentCmd input clip.start clip.stop false out) ≤ 0 ∧
    (process_short_form oracle input clip out =
        .ok [shortFormCmd input clip out] ↔ oracle (shortFormCmd input clip out) = true) ∧
    (process_long_form oracle tempDir input [clip] out =
        .ok [cutSegmentCmd input clip.start clip.stop false out] ↔
      oracle (cutSegmentCmd input clip.start clip.stop false out) = true) := by
  refine ⟨?_, ?_, ?_, ?_⟩
  · simpa [shortFormCmd, cmdDuration] using sub_nonpos.mpr h
  · simpa [cutSegmentCmd, cmdDuration] using sub_nonpos.mpr h
  · unfold process_short_form runCmd
    by_cases ho : oracle (shortFormCmd input clip out) <;> simp [ho]
  · unfold process_long_form runCmd
    by_cases ho : oracle (cutSegmentCmd input clip.start clip.stop false out) <;> simp [ho]

/-- Witness for the amended C1 at a concrete zero-duration clip and an
accepting ffmpeg. -/
theorem C1_amended_witness :
    cmdDuration (shortFormCmd "in.mp4" ⟨10, 10⟩ "clip.mp4") ≤ 0 ∧
    cmdDuration (cutSegmentCmd "in.mp4" 10 10 false "clip.mp4") ≤ 0 ∧
    (process_short_form (fun _ => true) "in.mp4" ⟨10, 10⟩ "clip.mp4" =
        .ok [shortFormCmd "in.mp4" ⟨10, 10⟩ "clip.mp4"] ↔
      (fun _ => true) (shortFormCmd "in.mp4" ⟨10, 10⟩ "clip.mp4") = true) ∧
    (process_long_form (fun _ => true) "tmp" "in.mp4" [⟨10, 10⟩] "clip.mp4" =
        .ok [cutSegmentCmd "in.mp4" 10 10 false "clip.mp4"] ↔
      (fun _ => true) (cutSegmentCmd "in.mp4" 10 10 false "clip.mp4") = true) :=
  C1_amended (fun _ => true) "in.mp4" "tmp" "clip.mp4" ⟨10, 10⟩ (le_refl 10)

/-- Claim C2: with two or more listed long-form ranges and an ffmpeg that
accepts every command, each range is trimmed into a numbered temporary
file in exactly the listed order, and the single lossless stream-copy
concatenation's manifest lists those temporary files in that same order —
nothing is re-sorted or merged, whatever the numeric order, overlap or
adjacency of the ranges. -/
theorem C2_long_form_order (oracle : FFmpegCmd → Bool) (h : ∀ c, oracle c = true)
    (tempDir input out : String) (segs : List TimeRange) (hlen : 2 ≤ segs.length) :
    process_long_form oracle tempDir input segs out =
      .ok ((segs.enum.map fun p =>
              cutSegmentCmd input p.2.start p.2.stop false (segPath tempDir p.1))
           ++ [FFmpegCmd.concatCopy (segs.enum.map fun p => segPath tempDir p.1) out]) := by
  rcases segs with _ | ⟨a, _ | ⟨b, rest⟩⟩
  · simp at hlen
  · simp at hlen
  · rw [process_long_form_ok oracle h]
    rfl

/-- Witness for C2 on three overlapping, numerically out-of-order ranges. -/
theorem C2_witness :
    process_long_form (fun _ => true) "tmp" "in.mp4"
        [⟨50, 60⟩, ⟨10, 20⟩, ⟨15, 25⟩] "out.mp4" =
      .ok [FFmpegCmd.trim "in.mp4" 50 (60 - 50) false "tmp/segment_000.mp4",
           FFmpegCmd.trim "in.mp4" 10 (20 - 10) false "tmp/segment_001.mp4",
           FFmpegCmd.trim "in.mp4" 15 (25 - 15) false "tmp/segment_002.mp4",
           FFmpegCmd.concatCopy
             ["tmp/segment_000.mp4", "tmp/segment_001.mp4", "tmp/segment_002.mp4"]
             "out.mp4"] :=
  (C2_long_form_order (fun _ => true) (fun _ => rfl) "tmp" "in.mp4" "out.mp4"
    [⟨50, 60⟩, ⟨10, 20⟩, ⟨15, 25⟩] (by norm_num)).trans (by rfl)

/-- Claim C3: with K short-form entries and an ffmpeg that accepts every
command, `process` performs exactly K short-clip productions, one per
entry in input order, into `shorts/short_01.mp4`, `shorts/short_02.mp4`,
..., numbered sequentially from 1, regardless of gaps or overlaps among
the entries' time ranges. -/
theorem C3_short_clip_naming (oracle : FFmpegCmd → Bool) (h : ∀ c, oracle c = true)
    (tempDir input outputDir : String) (analysis : AnalysisDict) (clips : List TimeRange)
    (hs : analysis.short_form = some clips) :
    process oracle tempDir input analysis outputDir =
      .ok (optLongFormCmds tempDir input analysis.long_form (outputDir ++ "/long_form.mp4")
           ++ (clips.enumFrom 1).map fun p =>
                shortFormCmd input p.2 (shortClipPath (outputDir ++ "/shorts") p.1)) ∧
    ((clips.enumFrom 1).map fun p =>
        shortFormCmd input p.2 (shortClipPath (outputDir ++ "/shorts") p.1)).length =
      clips.length := by
  constructor
  · rw [process_ok oracle h, hs]
    rfl
  · simp

/-- Witness for C3 on two clips with a gap and unusual ranges, long form
absent. -/
theorem C3_witness :
    process (fun _ => true) "tmp" "in.mp4" ⟨none, some [⟨0, 30⟩, ⟨40, 80⟩]⟩ "videos" =
      .ok [FFmpegCmd.trimVertical "in.mp4" 0 (30 - 0) "videos/shorts/short_01.mp4",
           FFmpegCmd.trimVertical "in.mp4" 40 (80 - 40) "videos/shorts/short_02.mp4"] ∧
    (2 : Nat) = 2 := by
  have := C3_short_clip_naming (fun _ => true) (fun _ => rfl) "tmp" "in.mp4" "videos"
    ⟨none, some [⟨0, 30⟩, ⟨40, 80⟩]⟩ [⟨0, 30⟩, ⟨40, 80⟩] rfl
  exact ⟨this.1.trans (by rfl), this.2⟩

/-- Claim C8: a present-but-empty `long_form` list is a no-op: `process`
behaves exactly as when the key is absent, and with no short-form entries
it runs no ffmpeg command at all, produces no `long_form.mp4`, and raises
no error. -/
theorem C8_empty_long_form (oracle : FFmpegCmd → Bool) (tempDir input outputDir : String)
    (sf : Option (List TimeRange)) :
    process oracle tempDir input ⟨some [], sf⟩ outputDir =
      process oracle tempDir input ⟨none, sf⟩ outputDir ∧
    process oracle tempDir input ⟨some [], none⟩ outputDir = .ok [] := by
  exact ⟨rfl, rfl⟩

/-- Claim C4 counterexample: in a reply whose first fenced block is plain
and where a later block carries the json tag, `_parse_response` extracts
the later json-tagged block, not the content of the first fenced block as
the claim states. -/
theorem C4_counterexample :
    parse_response_candidate "```\nfoo\n```\n```json\nbar\n```".toList = some "bar".toList ∧
    specFirstFencedCandidate "```\nfoo\n```\n```json\nbar\n```".toList = some "foo".toList ∧
    parse_response_candidate "```\nfoo\n```\n```json\nbar\n```".toList ≠
      specFirstFencedCandidate "```\nfoo\n```\n```json\nbar\n```".toList :=
  ⟨by decide, by decide, by decide⟩

/-- Claim C4 amended: extraction prefers the first json-tagged block
wherever it occurs. When the reply contains no fence the raw trimmed reply
is used; when the first fence of the reply is itself the json-tagged one,
the claim's reading holds (content of the first fenced block, tag
excluded); and when the reply has fenced blocks but no json tag anywhere,
the first fenced block is used with any other language tag left inside the
candidate text. An earlier plain fenced block is skipped whenever a
json-tagged block occurs later. -/
theorem C4_amended (r : List Char) :
    (containsSub "```".toList r = false → parse_response_candidate r = some (pyStrip r)) ∧
    (∀ i, findSub "```".toList r = some i → findSub "```json".toList r = some i →
        parse_response_candidate r = specFirstFencedCandidate r) ∧
    (containsSub "```json".toList r = false →
        parse_response_candidate r = specFirstFencedRawCandidate r) := by
  refine ⟨candidate_bare r, ?_, ?_⟩
  · intro i hf hj
    have hp := findSubAux_some_isPrefixOf ("```json".toList) r 0 i hj
    have hp' : ("```json".toList).isPrefixOf (r.drop i) = true := by simpa using hp
    obtain ⟨rest, hr⟩ := exists_append_of_isPrefixOf hp'
    have hjson : ("json".toList).isPrefixOf (r.drop (i + 3)) = true := by
      have hd : r.drop (i + 3) = List.drop 3 (r.drop i) := (List.drop_drop 3 i r).symm
      rw [hd, hr]
      rw [show List.drop 3 ("```json".toList ++ rest) = "json".toList ++ rest from rfl]
      rw [List.isPrefixOf_iff_prefix]
      exact ⟨rest, rfl⟩
    unfold parse_response_candidate specFirstFencedCandidate
    simp only [hf, hj, hjson, if_true]
  · intro hnj
    unfold parse_response_candidate specFirstFencedRawCandidate
    rw [findSub_eq_none_of_not_contains hnj]
    rcases hfe : findSub "```".toList r with _ | j <;> simp [hfe]

/-- Witness for the amended C4 on three concrete replies, one per case. -/
theorem C4_amended_witness :
    parse_response_candidate "no fence here".toList = some (pyStrip "no fence here".toList) ∧
    parse_response_candidate "```json\n1\n```".toList =
      specFirstFencedCandidate "```json\n1\n```".toList ∧
    parse_response_candidate "```yaml\n2\n```".toList =
      specFirstFencedRawCandidate "```yaml\n2\n```".toList :=
  ⟨(C4_amended _).1 (by decide),
   (C4_amended _).2.1 0 (by decide) (by decide),
   (C4_amended _).2.2 (by decide)⟩

/-- Claim C5 counterexample: `cexJsonReply` parses as JSON
(`loadsCex cexJsonReply = some 2`), yet the bare reply and its
json-fence-wrapped version do not produce the identical result: the bare
reply's extraction digs the text `1` out of the fence inside the JSON
string and parses it, while the wrapped reply fails to parse at all. -/
theorem C5_counterexample :
    loadsCex cexJsonReply ≠ none ∧
    parse_response loadsCex cexJsonReply = some 1 ∧
    parse_response loadsCex (wrapJsonFence cexJsonReply) = none ∧
    parse_response loadsCex (wrapJsonFence cexJsonReply) ≠ parse_response loadsCex cexJsonReply :=
  ⟨by decide, by decide, by decide, by decide⟩

/-- Claim C5 amended: for every reply that parses as JSON and contains no
triple-backtick fence, wrapping it in a fenced code block — with or
without the json language tag — parses to the identical structured result
as the bare reply. -/
theorem C5_amended {α : Type} (loads : List Char → Option α) (s : List Char)
    (hparse : loads s ≠ none) (hs : containsSub "```".toList s = false) :
    parse_response loads (wrapJsonFence s) = parse_response loads s ∧
    parse_response loads (wrapPlainFence s) = parse_response loads s := by
  unfold parse_response
  rw [candidate_bare s hs, candidate_wrapJson s hs, candidate_wrapPlain s hs]
  exact ⟨rfl, rfl⟩

/-- Witness for the amended C5 on the fence-free JSON reply `42`. -/
theorem C5_amended_witness :
    parse_response (fun l => some l) (wrapJsonFence "42".toList) =
      parse_response (fun l => some l) "42".toList ∧
    parse_response (fun l => some l) (wrapPlainFence "42".toList) =
      parse_response (fun l => some l) "42".toList :=
  C5_amended (fun l => some l) "42".toList (by decide) (by decide)

/-- Claim C6 counterexample: with generation failing exactly on
`reddit_post`, `generate_all` aborts the batch: `medium_article` would
generate successfully on its own, yet its artifact is never persisted;
only the one type before the failure is written. -/
theorem C6_counterexample :
    (generate_all genFailReddit).1 = .error .exception ∧
    (generate_all genFailReddit).2 = [("twitter_thread.md", "X")] ∧
    genFailReddit "medium_article" "medium_article.txt" = .ok "X" ∧
    ("medium_article.md", "X") ∉ (generate_all genFailReddit).2 :=
  ⟨by decide, by decide, by decide, by decide⟩

/-- Claim C6 amended: the five content types are generated strictly
sequentially with no per-type isolation (`generate_all` has no
`try`/`except`): the first failing type aborts the batch with its error,
the types before it have been generated and persisted, and the failing
type and every later type are not. -/
theorem C6_amended (gen : String → String → Except PyErr String)
    (pre rest : List (String × String × String)) (e : String × String × String) (err : PyErr)
    (hsplit : CONTENT_TYPES = pre ++ e :: rest)
    (hpre : ∀ p ∈ pre, ∃ v, gen p.1 p.2.1 = .ok v)
    (hfail : gen e.1 e.2.1 = .error err) :
    (generate_all gen).1 = .error err ∧
    (generate_all gen).2.map Prod.fst = pre.map fun p => p.2.2 := by
  unfold generate_all
  rw [hsplit]
  exact genLoop_prefix_fail gen e err rest hfail pre hpre

/-- Witness for the amended C6: failure on the second type leaves exactly
the first type's artifact. -/
theorem C6_amended_witness :
    (generate_all genFailReddit).1 = .error .exception ∧
    (generate_all genFailReddit).2.map Prod.fst = ["twitter_thread.md"] := by
  have h := C6_amended genFailReddit
    [("twitter_thread", "twitter_thread.txt", "twitter_thread.md")]
    [("medium_article", "medium_article.txt", "medium_article.md"),
     ("tweets", "tweets.txt", "tweets.md"),
     ("telegram_post", "telegram_post.txt", "telegram_post.md")]
    ("reddit_post", "reddit_post.txt", "reddit_post.md") .exception
    (by decide)
    (by
      intro p hp
      rw [List.mem_singleton.mp hp]
      exact ⟨"X", rfl⟩)
    rfl
  exact ⟨h.1, h.2.trans (by decide)⟩

/-- A formatted transcript entry contains no newline when its text does
not. -/
theorem entry_not_nl (a b : ℚ) (txt : List Char) (htxt : '\n' ∉ txt) :
    '\n' ∉ ("[".toList ++ format_time a ++ " - ".toList ++ format_time b
      ++ "] ".toList ++ txt) := by
  intro h
  rcases List.mem_append.mp h with h | h
  · rcases List.mem_append.mp h with h | h
    · rcases List.mem_append.mp h with h | h
      · rcases List.mem_append.mp h with h | h
        · rcases List.mem_append.mp h with h | h
          · exact (by decide : '\n' ∉ "[".toList) h
          · exact format_time_not_nl a h
        · exact (by decide : '\n' ∉ " - ".toList) h
      · exact format_time_not_nl b h
    · exact (by decide : '\n' ∉ "] ".toList) h
  · exact htxt h

/-- Claim C7 counterexample: a transcript with a single segment whose text
contains a newline produces a two-line listing, not exactly N = 1 lines. -/
theorem C7_counterexample :
    (pyLines (format_transcript ⟨[⟨0, 5, "a\nb".toList⟩]⟩)).length = 2 ∧
    ([⟨0, 5, "a\nb".toList⟩] : List TranscriptSeg).length = 1 := by
  constructor
  · have hnl : '\n' ∉ ("[".toList ++ format_time 0 ++ " - ".toList ++ format_time 5
        ++ "] ".toList ++ ['a']) :=
      entry_not_nl 0 5 ['a'] (by decide)
    have h1 : format_transcript ⟨[⟨0, 5, "a\nb".toList⟩]⟩ =
        ("[".toList ++ format_time 0 ++ " - ".toList ++ format_time 5
          ++ "] ".toList ++ ['a']) ++ '\n' :: ['b'] := by
      simp [format_transcript, List.intercalate]
    rw [h1, pyLines_append_nl _ _ hnl]
    rfl
  · rfl

/-- Claim C7 amended: provided no segment's text contains a newline, the
formatted listing of an N-segment transcript has exactly N lines, the i-th
line being the bracketed zero-padded HH:MM:SS - HH:MM:SS range derived
from segment i's start and end times, followed by its text. -/
theorem C7_amended (t : Transcript) (h : ∀ seg ∈ t.segments, '\n' ∉ seg.text) :
    pyLines (format_transcript t) =
      t.segments.map (fun seg =>
        "[".toList ++ format_time seg.start ++ " - ".toList ++ format_time seg.stop
          ++ "] ".toList ++ seg.text) ∧
    (pyLines (format_transcript t)).length = t.segments.length := by
  have hmain : pyLines (format_transcript t) =
      t.segments.map (fun seg =>
        "[".toList ++ format_time seg.start ++ " - ".toList ++ format_time seg.stop
          ++ "] ".toList ++ seg.text) := by
    unfold format_transcript
    apply pyLines_intercalate
    intro e he
    obtain ⟨seg, hseg, rfl⟩ := List.mem_map.mp he
    constructor
    · intro hc
      have : ('[' : Char) ∈ ([] : List Char) := by
        rw [← hc]
        simp [show ("[".toList : List Char) = ['['] from rfl]
      simp at this
    · exact entry_not_nl seg.start seg.stop seg.text (h seg hseg)
  exact ⟨hmain, by rw [hmain]; simp⟩

/-- Witness for the amended C7 on a two-segment newline-free transcript. -/
theorem C7_amended_witness :
    pyLines (format_transcript ⟨[⟨0, 5, "hello".toList⟩, ⟨5, 9, "world".toList⟩]⟩) =
      ["[".toList ++ format_time 0 ++ " - ".toList ++ format_time 5
         ++ "] ".toList ++ "hello".toList,
       "[".toList ++ format_time 5 ++ " - ".toList ++ format_time 9
         ++ "] ".toList ++ "world".toList] ∧
    (pyLines (format_transcript ⟨[⟨0, 5, "hello".toList⟩, ⟨5, 9, "world".toList⟩]⟩)).length = 2 := by
  have h := C7_amended ⟨[⟨0, 5, "hello".toList⟩, ⟨5, 9, "world".toList⟩]⟩ (by
    intro seg hseg
    rcases List.mem_cons.mp hseg with h1 | h1
    · rw [h1]; decide
    · rw [List.mem_singleton.mp h1]; decide)
  exact ⟨h.1, h.2⟩

/-- Claim C9: `get_llm_provider` is a pure selection function — the
provider value it returns is a plain record, and no network interaction
occurs before it returns.  An unrecognized (lower-cased) provider name is
rejected with `ValueError`, and for each of the two cloud providers a
missing credential environment variable is rejected with `ValueError`,
before any request could possibly be made. -/
theorem C9_provider_selection (env : String → Option String) (config : LLMConfig) :
    (pyLower (config.provider.getD "openai") ≠ "openai" →
     pyLower (config.provider.getD "openai") ≠ "anthropic" →
     pyLower (config.provider.getD "openai") ≠ "ollama" →
      get_llm_provider env config =
        .error (.unknownProvider (pyLower (config.provider.getD "openai")))) ∧
    (pyLower (config.provider.getD "openai") = "openai" →
     env (config.api_key_env.getD "OPENAI_API_KEY") = none →
      get_llm_provider env config =
        .error (.missingApiKey (config.api_key_env.getD "OPENAI_API_KEY"))) ∧
    (pyLower (config.provider.getD "openai") = "anthropic" →
     env (config.api_key_env.getD "ANTHROPIC_API_KEY") = none →
      get_llm_provider env config =
        .error (.missingApiKey (config.api_key_env.getD "ANTHROPIC_API_KEY"))) := by
  refine ⟨?_, ?_, ?_⟩
  · intro h1 h2 h3
    unfold get_llm_provider
    rw [if_neg h1, if_neg h2, if_neg h3]
  · intro h1 h2
    unfold get_llm_provider
    rw [if_pos h1]
    simp [h2]
  · intro h1 h2
    have h0 : pyLower (config.provider.getD "openai") ≠ "openai" := by
      rw [h1]; decide
    unfold get_llm_provider
    rw [if_neg h0, if_pos h1]
    simp [h2]

/-- Witness for C9: an unknown provider, and each cloud provider with an
empty environment. -/
theorem C9_witness :
    get_llm_provider (fun _ => none) { provider := some "Mistral" } =
      .error (.unknownProvider (pyLower "Mistral")) ∧
    get_llm_provider (fun _ => none) { provider := some "OpenAI" } =
      .error (.missingApiKey "OPENAI_API_KEY") ∧
    get_llm_provider (fun _ => none) { provider := some "Anthropic" } =
      .error (.missingApiKey "ANTHROPIC_API_KEY") :=
  ⟨(C9_provider_selection (fun _ => none) { provider := some "Mistral" }).1
     (by decide) (by decide) (by decide),
   (C9_provider_selection (fun _ => none) { provider := some "OpenAI" }).2.1
     (by decide) rfl,
   (C9_provider_selection (fun _ => none) { provider := some "Anthropic" }).2.2
     (by decide) rfl⟩

/-- Claim C10: when the JSON body of an Ollama HTTP reply lacks a
`response` field, both `complete` and `complete_with_system` return the
empty string (the `dict.get` default) rather than raising an error. -/
theorem C10_missing_response_field
    (fetch : OllamaRequest → Except NetErr (List (String × String)))
    (st : OllamaState) (prompt system : String) (o1 o2 : List (String × String))
    (h1 : fetch (ollamaRequest st none prompt) = .ok o1)
    (h2 : o1.lookup "response" = none)
    (h3 : fetch (ollamaRequest st (some system) prompt) = .ok o2)
    (h4 : o2.lookup "response" = none) :
    ollama_complete fetch st prompt = .ok "" ∧
    ollama_complete_with_system fetch st system prompt = .ok "" := by
  constructor
  · unfold ollama_complete
    rw [h1]
    simp [h2]
  · unfold ollama_complete_with_system
    rw [h3]
    simp [h4]

/-- Witness for C10 with a reply object carrying only a `model` field. -/
theorem C10_witness :
    ollama_complete (fun _ => .ok [("model", "m")]) (mkOllamaProvider "http://x/" "m") "hi" =
      .ok "" ∧
    ollama_complete_with_system (fun _ => .ok [("model", "m")])
      (mkOllamaProvider "http://x/" "m") "sys" "hi" = .ok "" :=
  C10_missing_response_field (fun _ => .ok [("model", "m")]) (mkOllamaProvider "http://x/" "m")
    "hi" "sys" [("model", "m")] [("model", "m")] rfl (by decide) rfl (by decide)
